import Mathlib

/-!
Verification of `test-network/bench-ph/plot.py`, a benchmark-visualization
script: it reads a CSV of hashing-benchmark rows, pivots them by file name
and algorithm, and renders three bar charts (elapsed time, speedup ratio,
absolute throughput).

Embedding conventions:
* Python strings are `String`; Python floats are modelled as `ℚ`
  (the script only moves parsed decimal literals around and performs one
  division, so the rational model is exact on the decimal-literal domain;
  `inf`/`nan` literals are outside the model).
* Python dicts (which preserve insertion order, and update a key in place)
  are modelled as association lists with unique keys, `Dict`.
* matplotlib calls are modelled by the data each renderer computes: the
  category labels, the bar heights, and the bar annotation texts.  File
  output and figure lifecycle are outside the model.
-/

/-- Python `str.isspace` characters relevant to `str.strip()` (ASCII part). -/
def pySpace (c : Char) : Bool :=
  c = ' ' ∨ c = '\t' ∨ c = '\n' ∨ c = '\r' ∨ c = '\x0b' ∨ c = '\x0c'

/-- Drop leading and trailing whitespace from a character list. -/
def stripChars (l : List Char) : List Char :=
  ((l.dropWhile pySpace).reverse.dropWhile pySpace).reverse

/-- Python `str.strip()`. -/
def pyStrip (s : String) : String :=
  ⟨stripChars s.data⟩

/-- Value of a nonempty all-digit character list, else `none`. -/
def parseDigits (l : List Char) : Option Nat :=
  if l = [] then none
  else if l.all (fun c => c.isDigit) then
    some (l.foldl (fun n c => n * 10 + (c.toNat - 48)) 0)
  else none

/-- Python `int(s)` on a string: optional sign followed by decimal digits
(whitespace is stripped; digit-group underscores are outside the model).
Returns `none` where `int()` raises `ValueError`. -/
def pyIntVal (s : String) : Option Int :=
  match stripChars s.data with
  | '+' :: rest => (parseDigits rest).map (fun n => (n : Int))
  | '-' :: rest => (parseDigits rest).map (fun n => -(n : Int))
  | l => (parseDigits l).map (fun n => (n : Int))

/-- Integer part and fractional part of a float mantissa: value of the
concatenated digits and the number of fractional digits.  At least one
digit must be present; at most one decimal point. -/
def mantissaVal (mant : List Char) : Option (Nat × Nat) :=
  let ip := mant.takeWhile (fun c => c ≠ '.')
  match mant.dropWhile (fun c => c ≠ '.') with
  | [] => (parseDigits ip).map (fun n => (n, 0))
  | _ :: fp =>
    if fp.any (fun c => c = '.') then none
    else if ip.all (fun c => c.isDigit) ∧ fp.all (fun c => c.isDigit) ∧
        (ip ≠ [] ∨ fp ≠ []) then
      some ((ip ++ fp).foldl (fun n c => n * 10 + (c.toNat - 48)) 0, fp.length)
    else none

/-- Exponent part of a float literal: empty means exponent 0, otherwise the
marker character followed by an optionally signed digit string. -/
def expVal (l : List Char) : Option Int :=
  match l with
  | [] => some 0
  | _ :: rest =>
    match rest with
    | '+' :: ds => (parseDigits ds).map (fun n => (n : Int))
    | '-' :: ds => (parseDigits ds).map (fun n => -(n : Int))
    | ds => (parseDigits ds).map (fun n => (n : Int))

/-- Python `float(s)` on a finite decimal literal: optional sign, digits
with an optional decimal point, optional `e`/`E` exponent.  Returns `none`
where `float()` raises `ValueError` (`inf`/`nan` are outside the model). -/
def pyFloatVal (s : String) : Option ℚ :=
  let l := stripChars s.data
  let sp : ℚ × List Char :=
    match l with
    | '+' :: rest => (1, rest)
    | '-' :: rest => (-1, rest)
    | _ => (1, l)
  let mant := sp.2.takeWhile (fun c => c ≠ 'e' ∧ c ≠ 'E')
  let ex := sp.2.dropWhile (fun c => c ≠ 'e' ∧ c ≠ 'E')
  match mantissaVal mant, expVal ex with
  | some mk, some e => some (sp.1 * ((mk.1 : ℚ) / (10 : ℚ) ^ mk.2) * (10 : ℚ) ^ e)
  | _, _ => none

/-- `to_int` from `read_rows`: `x = (x or "").strip(); try: return int(x)
except: return None`.  A missing cell (`r.get(..., "")` / a `None` cell)
arrives as `none` and is treated as `""`. -/
def to_int (x : Option String) : Option Int :=
  pyIntVal (pyStrip (x.getD ""))

/-- `to_float` from `read_rows`: like `to_int` but with `float(x)`. -/
def to_float (x : Option String) : Option ℚ :=
  pyFloatVal (pyStrip (x.getD ""))

/-- One parsed row of the benchmark table (`out` in `read_rows`). -/
structure Record where
  algo : String
  file : String
  B_bytes : Option Int
  bytes : Int
  elapsed_ms_med : ℚ
  throughput_mib_s : ℚ
  sum_hex : String
deriving DecidableEq

/-- One raw CSV row as produced by `csv.DictReader`: the required `algo`
and `file` cells plus the optional numeric/text cells (`none` models both
a missing column and a `None` cell of a short row). -/
structure RawRow where
  algo : String
  file : String
  B_bytes : Option String := none
  bytes : Option String := none
  elapsed_ms_med : Option String := none
  throughput_mib_s : Option String := none
  sum_hex : Option String := none
deriving DecidableEq

/-- Body of the `read_rows` loop: build one `Record` from one raw row.
Python's `to_int(...) or 0` maps `None` to the default and keeps any other
value; a parsed `0` is falsy but `0 or 0 = 0`, so `Option.getD` is
value-equal. -/
def readRow (r : RawRow) : Record :=
  { algo := pyStrip r.algo
    file := pyStrip r.file
    B_bytes := to_int r.B_bytes
    bytes := (to_int r.bytes).getD 0
    elapsed_ms_med := (to_float r.elapsed_ms_med).getD 0
    throughput_mib_s := (to_float r.throughput_mib_s).getD 0
    sum_hex := pyStrip (r.sum_hex.getD "") }

/-- `read_rows`: one `Record` per data row, in file order. -/
def read_rows (raw : List RawRow) : List Record :=
  raw.map readRow

/-- Insertion-ordered dictionary with string keys, as a CPython `dict`:
an association list whose keys are unique by construction. -/
abbrev Dict (V : Type) := List (String × V)

/-- Dictionary lookup (`d[k]` / `d.get(k)` / `k in d`). -/
def dGet {V : Type} (d : Dict V) (k : String) : Option V :=
  match d with
  | [] => none
  | p :: rest => if p.1 = k then some p.2 else dGet rest k

/-- Dictionary update `d[k] = v`: an existing key keeps its position and
gets the new value; a new key is appended (CPython insertion order). -/
def dSet {V : Type} (d : Dict V) (k : String) (v : V) : Dict V :=
  match d with
  | [] => [(k, v)]
  | p :: rest => if p.1 = k then (p.1, v) :: rest else p :: dSet rest k v

/-- The two recognized algorithm identifiers, as tested by
`if algo not in ("SHA-256", "PH128")`. -/
def recognizedAlgo (a : String) : Prop :=
  a = "SHA-256" ∨ a = "PH128"

instance (a : String) : Decidable (recognizedAlgo a) := by
  unfold recognizedAlgo; infer_instance

/-- Body of the `pivot_by_file` loop for one record. -/
def pivotStep (by_file : Dict (Dict Record)) (r : Record) : Dict (Dict Record) :=
  if recognizedAlgo r.algo then
    dSet by_file r.file (dSet ((dGet by_file r.file).getD []) r.algo r)
  else
    by_file

/-- `pivot_by_file`: group records by file name, then by algorithm,
dropping records whose algorithm is not recognized. -/
def pivot_by_file (rows : List Record) : Dict (Dict Record) :=
  rows.foldl pivotStep []

/-- Two-decimal rendering of `f"{h:.2f}"`: scale by 100, round half to
even (the printf rounding on the exactly-representable domain), print with
two fractional digits. -/
def rnd2 (q : ℚ) : ℤ :=
  let y := q * 100
  let f := Int.floor y
  if y - f < 1 / 2 then f
  else if y - f > 1 / 2 then f + 1
  else if f % 2 = 0 then f else f + 1

/-- The text `_bar_labels` draws for one bar of height `h` (with the
default `fmt="{}"` wrapper). -/
def fmt2 (q : ℚ) : String :=
  let n := rnd2 q
  let na := n.natAbs
  (if n < 0 then "-" else "") ++ toString (na / 100) ++ "." ++
    (if na % 100 < 10 then "0" else "") ++ toString (na % 100)

/-- `_bar_labels`: annotate each bar with its height to two decimals. -/
def barAnnotations (heights : List ℚ) : List String :=
  heights.map (fun h => fmt2 h)

/-- Data of a two-series grouped bar chart: categories, SHA-256 heights,
PH128 heights, and the annotation texts drawn over each series. -/
structure GroupedChart where
  labels : List String
  sha_vals : List ℚ
  ph_vals : List ℚ
  sha_texts : List String
  ph_texts : List String
deriving DecidableEq

/-- Data of a single-series bar chart. -/
structure BarChart where
  labels : List String
  values : List ℚ
  texts : List String
deriving DecidableEq

/-- Body of the `make_time_plot` selection loop for one pivot entry. -/
def timeStep (acc : List String × List ℚ × List ℚ) (p : String × Dict Record) :
    List String × List ℚ × List ℚ :=
  if p.1 = "TOTAL" then acc
  else match dGet p.2 "SHA-256", dGet p.2 "PH128" with
    | some s, some ph =>
      (acc.1 ++ [p.1], acc.2.1 ++ [s.elapsed_ms_med], acc.2.2 ++ [ph.elapsed_ms_med])
    | _, _ => acc

/-- `make_time_plot`: grouped bars of median elapsed ms, skipping the
`"TOTAL"` aggregate row, for files having both algorithms. -/
def make_time_plot (rows : List Record) : GroupedChart :=
  let by_file := pivot_by_file rows
  let acc := by_file.foldl timeStep ([], [], [])
  { labels := acc.1
    sha_vals := acc.2.1
    ph_vals := acc.2.2
    sha_texts := barAnnotations acc.2.1
    ph_texts := barAnnotations acc.2.2 }

/-- Body of the `make_speedup_plot` selection loop for one pivot entry:
`if sha_t and ph_t` is Python float truthiness, i.e. both non-zero. -/
def speedupStep (acc : List String × List ℚ) (p : String × Dict Record) :
    List String × List ℚ :=
  match dGet p.2 "SHA-256", dGet p.2 "PH128" with
  | some s, some ph =>
    if s.throughput_mib_s ≠ 0 ∧ ph.throughput_mib_s ≠ 0 then
      (acc.1 ++ [p.1], acc.2 ++ [ph.throughput_mib_s / s.throughput_mib_s])
    else acc
  | _, _ => acc

/-- `make_speedup_plot`: one bar per qualifying file (the `"TOTAL"` row
included), valued PH128 throughput over SHA-256 throughput. -/
def make_speedup_plot (rows : List Record) : BarChart :=
  let by_file := pivot_by_file rows
  let acc := by_file.foldl speedupStep ([], [])
  { labels := acc.1
    values := acc.2
    texts := barAnnotations acc.2 }

/-- The `preferred` ordering list of `make_throughput_plot`. -/
def preferredOrder : List String :=
  ["public_state.data", "private_state_hashes.data", "txids.data", "_all.data", "TOTAL"]

/-- `all_labels` of `make_throughput_plot`: files having both algorithms,
in pivot-index iteration order. -/
def throughputAllLabels (rows : List Record) : List String :=
  ((pivot_by_file rows).filter
    (fun p => (dGet p.2 "SHA-256").isSome ∧ (dGet p.2 "PH128").isSome)).map
    (fun p => p.1)

/-- `labels` of `make_throughput_plot`: preferred entries that are present
first, then the remaining qualifying files in `sorted` order. -/
def throughputLabels (rows : List Record) : List String :=
  let all_labels := throughputAllLabels rows
  preferredOrder.filter (fun f => decide (f ∈ all_labels)) ++
    (all_labels.filter (fun f => decide (f ∉ preferredOrder))).mergeSort
      (fun a b => decide (a ≤ b))

/-- Throughput of the record stored for algorithm `a` under file `f`
(`by_file[f][a]["throughput_mib_s"]`; the Python indexing would raise for
an absent key — the default 0 branch is proved unreachable for the labels
the chart uses). -/
def throughputAt (by_file : Dict (Dict Record)) (f a : String) : ℚ :=
  (((dGet by_file f).bind (fun al => dGet al a)).map
    (fun r => r.throughput_mib_s)).getD 0

/-- `make_throughput_plot`: grouped bars of absolute throughput with the
preferred-first ordering. -/
def make_throughput_plot (rows : List Record) : GroupedChart :=
  let by_file := pivot_by_file rows
  let labels := throughputLabels rows
  let sha_vals := labels.map (fun f => throughputAt by_file f "SHA-256")
  let ph_vals := labels.map (fun f => throughputAt by_file f "PH128")
  { labels := labels
    sha_vals := sha_vals
    ph_vals := ph_vals
    sha_texts := barAnnotations sha_vals
    ph_texts := barAnnotations ph_vals }

/-- Split a character list at `/` separators. -/
def splitSlash : List Char → List (List Char)
  | [] => [[]]
  | c :: rest =>
    match splitSlash rest with
    | [] => [[]]
    | g :: gs => if c = '/' then [] :: g :: gs else (c :: g) :: gs

/-- `Path.stem`: final path component with its suffix removed (pathlib:
the suffix is the part from the last dot, provided that dot is neither the
first nor the last character of the name). -/
def pathStem (p : String) : String :=
  let name := ((splitSlash p.data).filter (fun g => g ≠ [])).getLastD []
  if '.' ∈ name then
    let i := (name.length - 1) - name.reverse.indexOf '.'
    if 0 < i ∧ i < name.length - 1 then ⟨name.take i⟩ else ⟨name⟩
  else ⟨name⟩

/-- `outdir / name` for the output paths (pathlib collapses `./name`). -/
def pathJoin (outdir name : String) : String :=
  if outdir = "." then name else outdir ++ "/" ++ name

/-- Observable behaviour of `main`: which renderer runs on which output
path, in order, and what is printed. -/
structure MainResult where
  renders : List (String × String)
  printed : List String
deriving DecidableEq

/-- `main`: derive the three output names from the CSV path's stem, run
the three renderers in fixed order, report the saved paths. -/
def mainRun (csv_path outdir : String) : MainResult :=
  let base := pathStem csv_path
  let time_png := pathJoin outdir (base ++ "_time.png")
  let speedup_png := pathJoin outdir (base ++ "_speedup.png")
  let throughput_png := pathJoin outdir (base ++ "_throughput.png")
  { renders :=
      [("time", time_png), ("speedup", speedup_png), ("throughput", throughput_png)]
    printed :=
      ["OK! Arquivos salvos:",
       " - " ++ time_png,
       " - " ++ speedup_png,
       " - " ++ throughput_png] }

/-- Invariant of the pivot index: every algorithm key of an inner
dictionary is one of the two recognized identifiers. -/
def innerKeysRecognized (d : Dict (Dict Record)) : Prop :=
  ∀ f al, dGet d f = some al → ∀ a, (dGet al a).isSome → recognizedAlgo a

/-- The selection the `make_time_plot` loop makes for one pivot entry:
the label and the two elapsed-time values, or nothing. -/
def timeSel (p : String × Dict Record) : Option (String × ℚ × ℚ) :=
  if p.1 = "TOTAL" then none
  else match dGet p.2 "SHA-256", dGet p.2 "PH128" with
    | some s, some ph => some (p.1, s.elapsed_ms_med, ph.elapsed_ms_med)
    | _, _ => none

/-- The selection the `make_speedup_plot` loop makes for one pivot entry:
the label and the throughput ratio, or nothing. -/
def speedupSel (p : String × Dict Record) : Option (String × ℚ) :=
  match dGet p.2 "SHA-256", dGet p.2 "PH128" with
  | some s, some ph =>
    if s.throughput_mib_s ≠ 0 ∧ ph.throughput_mib_s ≠ 0 then
      some (p.1, ph.throughput_mib_s / s.throughput_mib_s)
    else none
  | _, _ => none

/-- Invariant of the pivot index: inner dictionaries have unique algorithm
keys (at most one retained record per `(file, algorithm)` pair). -/
def innerKeysNodup (d : Dict (Dict Record)) : Prop :=
  ∀ f al, dGet d f = some al → (al.map Prod.fst).Nodup

/-- Sample SHA-256 row for the "data.bin" file (spec section 8 example). -/
def recSha : Record :=
  { algo := "SHA-256", file := "data.bin", B_bytes := none, bytes := 1048576,
    elapsed_ms_med := 100, throughput_mib_s := 10, sum_hex := "" }

/-- Sample PH128 row for the "data.bin" file (spec section 8 example). -/
def recPh : Record :=
  { algo := "PH128", file := "data.bin", B_bytes := none, bytes := 1048576,
    elapsed_ms_med := 20, throughput_mib_s := 50, sum_hex := "" }

/-- Sample record list with both algorithms for one file. -/
def sampleRows : List Record := [recSha, recPh]

/-- The inner dictionary the pivot builds for `sampleRows`. -/
def sampleAl : Dict Record := [("SHA-256", recSha), ("PH128", recPh)]

/-- A second SHA-256 record for "data.bin": a duplicate key in the pivot. -/
def recSha2 : Record :=
  { algo := "SHA-256", file := "data.bin", B_bytes := none, bytes := 1048576,
    elapsed_ms_med := 90, throughput_mib_s := 11, sum_hex := "" }

/-- Record list with a duplicated (file, algorithm) pair. -/
def dupRows : List Record := [recSha, recSha2, recPh]

/-- A raw row whose numeric cells all fail to parse. -/
def badRow : RawRow :=
  { algo := "SHA-256", file := "f", B_bytes := some "abc", bytes := some " ",
    elapsed_ms_med := none, throughput_mib_s := some "x1" }

/-- A raw row whose byte-count cell holds a float-formatted value. -/
def floatBytesRow : RawRow :=
  { algo := "SHA-256", file := "f", bytes := some "3.5" }

theorem dGet_dSet_self {V : Type} (d : Dict V) (k : String) (v : V) :
    dGet (dSet d k v) k = some v := by
  induction d with
  | nil => simp [dGet, dSet]
  | cons p rest ih =>
    obtain ⟨a, b⟩ := p
    by_cases hp : a = k
    · subst hp; simp [dGet, dSet]
    · simp [dGet, dSet, hp, ih]

theorem dGet_dSet_ne {V : Type} (d : Dict V) (k : String) (v : V) (k' : String)
    (h : k' ≠ k) : dGet (dSet d k v) k' = dGet d k' := by
  induction d with
  | nil => simp [dGet, dSet, h.symm]
  | cons p rest ih =>
    obtain ⟨a, b⟩ := p
    by_cases hp : a = k
    · subst hp; simp [dGet, dSet, h.symm]
    · simp [dGet, dSet, hp, ih]

theorem mem_keys_dSet {V : Type} (d : Dict V) (k : String) (v : V) (k' : String) :
    k' ∈ (dSet d k v).map Prod.fst ↔ k' ∈ d.map Prod.fst ∨ k' = k := by
  induction d with
  | nil => simp [dSet]
  | cons p rest ih =>
    obtain ⟨a, b⟩ := p
    by_cases hp : a = k
    · subst hp; simp [dSet]; tauto
    · simp [dSet, hp, ih]; tauto

theorem nodup_keys_dSet {V : Type} (d : Dict V) (k : String) (v : V)
    (h : (d.map Prod.fst).Nodup) : ((dSet d k v).map Prod.fst).Nodup := by
  induction d with
  | nil => simp [dSet]
  | cons p rest ih =>
    obtain ⟨a, b⟩ := p
    simp only [List.map_cons, List.nodup_cons] at h
    by_cases hp : a = k
    · subst hp
      have hset : dSet ((a, b) :: rest) a v = (a, v) :: rest := by simp [dSet]
      rw [hset]
      simp only [List.map_cons, List.nodup_cons]
      exact ⟨h.1, h.2⟩
    · simp only [dSet, if_neg hp, List.map_cons, List.nodup_cons]
      refine ⟨fun hmem => ?_, ih h.2⟩
      rcases (mem_keys_dSet rest k v a).1 hmem with hm | hm
      · exact h.1 hm
      · exact hp hm

theorem dGet_isSome_iff_mem_keys {V : Type} (d : Dict V) (k : String) :
    (dGet d k).isSome ↔ k ∈ d.map Prod.fst := by
  induction d with
  | nil => simp [dGet]
  | cons p rest ih =>
    obtain ⟨a, b⟩ := p
    by_cases hp : a = k
    · subst hp; simp [dGet]
    · have : ¬ k = a := fun hh => hp hh.symm
      simp [dGet, hp, ih, this]

theorem mem_of_dGet_eq_some {V : Type} (d : Dict V) (k : String) (v : V)
    (h : dGet d k = some v) : (k, v) ∈ d := by
  induction d with
  | nil => simp [dGet] at h
  | cons p rest ih =>
    obtain ⟨a, b⟩ := p
    by_cases hp : a = k
    · subst hp
      simp [dGet] at h
      simp [h]
    · simp [dGet, hp] at h
      simp [ih h]

theorem dGet_eq_some_of_mem {V : Type} (d : Dict V) (k : String) (v : V)
    (hnd : (d.map Prod.fst).Nodup) (h : (k, v) ∈ d) : dGet d k = some v := by
  induction d with
  | nil => simp at h
  | cons p rest ih =>
    obtain ⟨a, b⟩ := p
    simp only [List.map_cons, List.nodup_cons] at hnd
    rcases List.mem_cons.1 h with he | hm
    · rw [Prod.mk.injEq] at he
      simp [dGet, he.1, he.2]
    · have hk : a ≠ k := by
        intro hh
        subst hh
        exact hnd.1 (List.mem_map.2 ⟨(a, v), hm, rfl⟩)
      simp [dGet, hk, ih hnd.2 hm]

theorem pivot_by_file_append (l : List Record) (r : Record) :
    pivot_by_file (l ++ [r]) = pivotStep (pivot_by_file l) r := by
  simp [pivot_by_file, List.foldl_append]

theorem nodup_keys_pivotStep (d : Dict (Dict Record)) (r : Record)
    (h : (d.map Prod.fst).Nodup) : ((pivotStep d r).map Prod.fst).Nodup := by
  unfold pivotStep
  by_cases hrec : recognizedAlgo r.algo
  · simp only [if_pos hrec]
    exact nodup_keys_dSet _ _ _ h
  · simp only [if_neg hrec]
    exact h

theorem pivot_keys_nodup (rows : List Record) :
    ((pivot_by_file rows).map Prod.fst).Nodup := by
  induction rows using List.reverseRecOn with
  | nil => simp [pivot_by_file]
  | append_singleton l r ih =>
    rw [pivot_by_file_append]
    exact nodup_keys_pivotStep _ _ ih

theorem innerKeysRecognized_pivotStep (d : Dict (Dict Record)) (r : Record)
    (h : innerKeysRecognized d) : innerKeysRecognized (pivotStep d r) := by
  unfold pivotStep
  by_cases hrec : recognizedAlgo r.algo
  · simp only [if_pos hrec]
    intro f al hget a hsome
    by_cases hf : f = r.file
    · subst hf
      rw [dGet_dSet_self] at hget
      cases hget
      by_cases ha : a = r.algo
      · subst ha; exact hrec
      · rw [dGet_dSet_ne _ _ _ _ ha] at hsome
        cases hdg : dGet d r.file with
        | none => rw [hdg] at hsome; simp [dGet] at hsome
        | some al0 =>
          rw [hdg] at hsome
          exact h r.file al0 hdg a hsome
    · rw [dGet_dSet_ne _ _ _ _ hf] at hget
      exact h f al hget a hsome
  · simp only [if_neg hrec]
    exact h

theorem pivot_innerKeysRecognized (rows : List Record) :
    innerKeysRecognized (pivot_by_file rows) := by
  induction rows using List.reverseRecOn with
  | nil =>
    intro f al hget
    simp [pivot_by_file, dGet] at hget
  | append_singleton l r ih =>
    rw [pivot_by_file_append]
    exact innerKeysRecognized_pivotStep _ _ ih

theorem pivot_last_wins (rows : List Record) (f a : String)
    (h : recognizedAlgo a) :
    (dGet (pivot_by_file rows) f).bind (fun al => dGet al a) =
    (rows.filter (fun r => decide (r.file = f ∧ r.algo = a))).getLast? := by
  induction rows using List.reverseRecOn with
  | nil => simp [pivot_by_file, dGet]
  | append_singleton l r ih =>
    rw [pivot_by_file_append, List.filter_append]
    by_cases hrec : recognizedAlgo r.algo
    · simp only [pivotStep, if_pos hrec]
      by_cases hf : r.file = f
      · subst hf
        rw [dGet_dSet_self]
        by_cases ha : r.algo = a
        · subst ha
          rw [Option.some_bind, dGet_dSet_self]
          have hcond : (fun rr : Record => decide (rr.file = r.file ∧ rr.algo = r.algo)) r = true := by
            simp
          simp [List.filter, hcond, List.getLast?_concat]
        · have hne : a ≠ r.algo := fun hh => ha hh.symm
          rw [Option.some_bind, dGet_dSet_ne _ _ _ _ hne]
          have hcond : ¬ (r.file = r.file ∧ r.algo = a) := fun hc => ha hc.2
          have hfil : List.filter (fun rr : Record => decide (rr.file = r.file ∧ rr.algo = a)) [r] = [] := by
            simp [List.filter, ha]
          rw [hfil, List.append_nil, ← ih]
          cases hdg : dGet (pivot_by_file l) r.file with
          | none => simp [hdg, dGet]
          | some al0 => simp [hdg]
      · have hne : f ≠ r.file := fun hh => hf hh.symm
        rw [dGet_dSet_ne _ _ _ _ hne]
        have hcond : ¬ (r.file = f ∧ r.algo = a) := fun hc => hf hc.1
        have hfil : List.filter (fun rr : Record => decide (rr.file = f ∧ rr.algo = a)) [r] = [] := by
          simp [List.filter, hcond]
        rw [hfil, List.append_nil, ih]
    · simp only [pivotStep, if_neg hrec]
      have hcond : ¬ (r.file = f ∧ r.algo = a) := fun hc => hrec (hc.2 ▸ h)
      have hfil : List.filter (fun rr : Record => decide (rr.file = f ∧ rr.algo = a)) [r] = [] := by
        simp [List.filter, hcond]
      rw [hfil, List.append_nil, ih]

theorem timeStep_eq (acc : List String × List ℚ × List ℚ)
    (p : String × Dict Record) :
    timeStep acc p =
      match timeSel p with
      | none => acc
      | some e => (acc.1 ++ [e.1], acc.2.1 ++ [e.2.1], acc.2.2 ++ [e.2.2]) := by
  unfold timeStep timeSel
  by_cases ht : p.1 = "TOTAL"
  · simp [ht]
  · simp only [if_neg ht]
    cases dGet p.2 "SHA-256" <;> cases dGet p.2 "PH128" <;> simp

theorem time_foldl (l : List (String × Dict Record))
    (acc : List String × List ℚ × List ℚ) :
    l.foldl timeStep acc =
      (acc.1 ++ (l.filterMap timeSel).map (fun e => e.1),
       acc.2.1 ++ (l.filterMap timeSel).map (fun e => e.2.1),
       acc.2.2 ++ (l.filterMap timeSel).map (fun e => e.2.2)) := by
  induction l generalizing acc with
  | nil => simp
  | cons p l ih =>
    cases hsel : timeSel p with
    | none => simp [List.foldl_cons, timeStep_eq, hsel, List.filterMap_cons, ih]
    | some e => simp [List.foldl_cons, timeStep_eq, hsel, List.filterMap_cons, ih]

theorem make_time_plot_labels (rows : List Record) :
    (make_time_plot rows).labels =
      ((pivot_by_file rows).filterMap timeSel).map (fun e => e.1) := by
  simp [make_time_plot, time_foldl]

theorem make_time_plot_sha_vals (rows : List Record) :
    (make_time_plot rows).sha_vals =
      ((pivot_by_file rows).filterMap timeSel).map (fun e => e.2.1) := by
  simp [make_time_plot, time_foldl]

theorem make_time_plot_ph_vals (rows : List Record) :
    (make_time_plot rows).ph_vals =
      ((pivot_by_file rows).filterMap timeSel).map (fun e => e.2.2) := by
  simp [make_time_plot, time_foldl]

theorem speedupStep_eq (acc : List String × List ℚ)
    (p : String × Dict Record) :
    speedupStep acc p =
      match speedupSel p with
      | none => acc
      | some e => (acc.1 ++ [e.1], acc.2 ++ [e.2]) := by
  unfold speedupStep speedupSel
  cases dGet p.2 "SHA-256" with
  | none => simp
  | some s =>
    cases dGet p.2 "PH128" with
    | none => simp
    | some ph =>
      by_cases hnz : s.throughput_mib_s ≠ 0 ∧ ph.throughput_mib_s ≠ 0
      · simp [hnz]
      · simp [hnz]

theorem speedup_foldl (l : List (String × Dict Record))
    (acc : List String × List ℚ) :
    l.foldl speedupStep acc =
      (acc.1 ++ (l.filterMap speedupSel).map (fun e => e.1),
       acc.2 ++ (l.filterMap speedupSel).map (fun e => e.2)) := by
  induction l generalizing acc with
  | nil => simp
  | cons p l ih =>
    cases hsel : speedupSel p with
    | none => simp [List.foldl_cons, speedupStep_eq, hsel, List.filterMap_cons, ih]
    | some e => simp [List.foldl_cons, speedupStep_eq, hsel, List.filterMap_cons, ih]

theorem make_speedup_plot_labels (rows : List Record) :
    (make_speedup_plot rows).labels =
      ((pivot_by_file rows).filterMap speedupSel).map (fun e => e.1) := by
  simp [make_speedup_plot, speedup_foldl]

theorem make_speedup_plot_values (rows : List Record) :
    (make_speedup_plot rows).values =
      ((pivot_by_file rows).filterMap speedupSel).map (fun e => e.2) := by
  simp [make_speedup_plot, speedup_foldl]

theorem timeSel_eq_some (p : String × Dict Record) (e : String × ℚ × ℚ)
    (h : timeSel p = some e) :
    p.1 ≠ "TOTAL" ∧ ∃ s ph, dGet p.2 "SHA-256" = some s ∧
      dGet p.2 "PH128" = some ph ∧
      e = (p.1, s.elapsed_ms_med, ph.elapsed_ms_med) := by
  by_cases ht : p.1 = "TOTAL"
  · simp [timeSel, ht] at h
  · cases hs : dGet p.2 "SHA-256" with
    | none => simp [timeSel, ht, hs] at h
    | some s =>
      cases hph : dGet p.2 "PH128" with
      | none => simp [timeSel, ht, hs, hph] at h
      | some ph =>
        simp [timeSel, ht, hs, hph] at h
        exact ⟨ht, s, ph, rfl, rfl, h.symm⟩

theorem mem_time_labels_iff (rows : List Record) (f : String) :
    f ∈ (make_time_plot rows).labels ↔
      f ≠ "TOTAL" ∧ ∃ al s ph, dGet (pivot_by_file rows) f = some al ∧
        dGet al "SHA-256" = some s ∧ dGet al "PH128" = some ph := by
  rw [make_time_plot_labels]
  constructor
  · intro hmem
    rcases List.mem_map.1 hmem with ⟨e, he, hef⟩
    rcases List.mem_filterMap.1 he with ⟨p, hp, hsel⟩
    rcases timeSel_eq_some p e hsel with ⟨ht, s, ph, hs, hph, he'⟩
    have hf : p.1 = f := by rw [he'] at hef; exact hef
    subst hf
    have hget : dGet (pivot_by_file rows) p.1 = some p.2 :=
      dGet_eq_some_of_mem _ _ _ (pivot_keys_nodup rows)
        (by rw [show (p.1, p.2) = p from rfl]; exact hp)
    exact ⟨ht, p.2, s, ph, hget, hs, hph⟩
  · rintro ⟨hT, al, s, ph, hal, hs, hph⟩
    have hmem : (f, al) ∈ pivot_by_file rows := mem_of_dGet_eq_some _ _ _ hal
    have hsel : timeSel (f, al) = some (f, s.elapsed_ms_med, ph.elapsed_ms_med) := by
      simp [timeSel, hT, hs, hph]
    exact List.mem_map.2 ⟨_, List.mem_filterMap.2 ⟨_, hmem, hsel⟩, rfl⟩

theorem time_vals_at (rows : List Record) (i : Nat) (f : String)
    (hf : (make_time_plot rows).labels.get? i = some f) :
    ∃ al s ph, dGet (pivot_by_file rows) f = some al ∧
      dGet al "SHA-256" = some s ∧ dGet al "PH128" = some ph ∧
      (make_time_plot rows).sha_vals.get? i = some s.elapsed_ms_med ∧
      (make_time_plot rows).ph_vals.get? i = some ph.elapsed_ms_med := by
  rw [make_time_plot_labels] at hf
  rw [make_time_plot_sha_vals, make_time_plot_ph_vals]
  rw [List.get?_map] at hf
  cases he : ((pivot_by_file rows).filterMap timeSel).get? i with
  | none => rw [he] at hf; simp at hf
  | some e =>
    rw [he] at hf
    simp only [Option.map_some'] at hf
    have hmem : e ∈ (pivot_by_file rows).filterMap timeSel := List.get?_mem he
    rcases List.mem_filterMap.1 hmem with ⟨p, hp, hsel⟩
    rcases timeSel_eq_some p e hsel with ⟨ht, s, ph, hs, hph, he'⟩
    have hpf : p.1 = f := by
      rw [he'] at hf; exact Option.some.inj hf
    have hget : dGet (pivot_by_file rows) f = some p.2 := by
      rw [← hpf]
      exact dGet_eq_some_of_mem _ _ _ (pivot_keys_nodup rows)
        (by rw [show (p.1, p.2) = p from rfl]; exact hp)
    refine ⟨p.2, s, ph, hget, hs, hph, ?_, ?_⟩
    · rw [List.get?_map, he, he']; rfl
    · rw [List.get?_map, he, he']; rfl

theorem speedupSel_eq_some (p : String × Dict Record) (e : String × ℚ)
    (h : speedupSel p = some e) :
    ∃ s ph, dGet p.2 "SHA-256" = some s ∧ dGet p.2 "PH128" = some ph ∧
      s.throughput_mib_s ≠ 0 ∧ ph.throughput_mib_s ≠ 0 ∧
      e = (p.1, ph.throughput_mib_s / s.throughput_mib_s) := by
  cases hs : dGet p.2 "SHA-256" with
  | none => simp [speedupSel, hs] at h
  | some s =>
    cases hph : dGet p.2 "PH128" with
    | none => simp [speedupSel, hs, hph] at h
    | some ph =>
      by_cases hnz : s.throughput_mib_s ≠ 0 ∧ ph.throughput_mib_s ≠ 0
      · simp [speedupSel, hs, hph, hnz] at h
        exact ⟨s, ph, rfl, rfl, hnz.1, hnz.2, h.symm⟩
      · simp [speedupSel, hs, hph, hnz] at h

theorem mem_speedup_labels_iff (rows : List Record) (f : String) :
    f ∈ (make_speedup_plot rows).labels ↔
      ∃ al s ph, dGet (pivot_by_file rows) f = some al ∧
        dGet al "SHA-256" = some s ∧ dGet al "PH128" = some ph ∧
        s.throughput_mib_s ≠ 0 ∧ ph.throughput_mib_s ≠ 0 := by
  rw [make_speedup_plot_labels]
  constructor
  · intro hmem
    rcases List.mem_map.1 hmem with ⟨e, he, hef⟩
    rcases List.mem_filterMap.1 he with ⟨p, hp, hsel⟩
    rcases speedupSel_eq_some p e hsel with ⟨s, ph, hs, hph, hnz1, hnz2, he'⟩
    have hf : p.1 = f := by rw [he'] at hef; exact hef
    subst hf
    have hget : dGet (pivot_by_file rows) p.1 = some p.2 :=
      dGet_eq_some_of_mem _ _ _ (pivot_keys_nodup rows)
        (by rw [show (p.1, p.2) = p from rfl]; exact hp)
    exact ⟨p.2, s, ph, hget, hs, hph, hnz1, hnz2⟩
  · rintro ⟨al, s, ph, hal, hs, hph, hnz1, hnz2⟩
    have hmem : (f, al) ∈ pivot_by_file rows := mem_of_dGet_eq_some _ _ _ hal
    have hsel : speedupSel (f, al) =
        some (f, ph.throughput_mib_s / s.throughput_mib_s) := by
      simp [speedupSel, hs, hph, hnz1, hnz2]
    exact List.mem_map.2 ⟨_, List.mem_filterMap.2 ⟨_, hmem, hsel⟩, rfl⟩

theorem speedup_vals_at (rows : List Record) (i : Nat) (f : String)
    (hf : (make_speedup_plot rows).labels.get? i = some f) :
    ∃ al s ph, dGet (pivot_by_file rows) f = some al ∧
      dGet al "SHA-256" = some s ∧ dGet al "PH128" = some ph ∧
      s.throughput_mib_s ≠ 0 ∧ ph.throughput_mib_s ≠ 0 ∧
      (make_speedup_plot rows).values.get? i =
        some (ph.throughput_mib_s / s.throughput_mib_s) := by
  rw [make_speedup_plot_labels] at hf
  rw [make_speedup_plot_values]
  rw [List.get?_map] at hf
  cases he : ((pivot_by_file rows).filterMap speedupSel).get? i with
  | none => rw [he] at hf; simp at hf
  | some e =>
    rw [he] at hf
    simp only [Option.map_some'] at hf
    have hmem : e ∈ (pivot_by_file rows).filterMap speedupSel := List.get?_mem he
    rcases List.mem_filterMap.1 hmem with ⟨p, hp, hsel⟩
    rcases speedupSel_eq_some p e hsel with ⟨s, ph, hs, hph, hnz1, hnz2, he'⟩
    have hpf : p.1 = f := by rw [he'] at hf; exact Option.some.inj hf
    have hget : dGet (pivot_by_file rows) f = some p.2 := by
      rw [← hpf]
      exact dGet_eq_some_of_mem _ _ _ (pivot_keys_nodup rows)
        (by rw [show (p.1, p.2) = p from rfl]; exact hp)
    refine ⟨p.2, s, ph, hget, hs, hph, hnz1, hnz2, ?_⟩
    rw [List.get?_map, he, he']; rfl

theorem mem_throughputAllLabels_iff (rows : List Record) (f : String) :
    f ∈ throughputAllLabels rows ↔
      ∃ al s ph, dGet (pivot_by_file rows) f = some al ∧
        dGet al "SHA-256" = some s ∧ dGet al "PH128" = some ph := by
  unfold throughputAllLabels
  constructor
  · intro h
    rcases List.mem_map.1 h with ⟨p, hp, hpf⟩
    rcases List.mem_filter.1 hp with ⟨hmem, hcond⟩
    have hc := of_decide_eq_true hcond
    rcases Option.isSome_iff_exists.1 hc.1 with ⟨s, hs⟩
    rcases Option.isSome_iff_exists.1 hc.2 with ⟨ph, hph⟩
    have hget : dGet (pivot_by_file rows) p.1 = some p.2 :=
      dGet_eq_some_of_mem _ _ _ (pivot_keys_nodup rows)
        (by rw [show (p.1, p.2) = p from rfl]; exact hmem)
    subst hpf
    exact ⟨p.2, s, ph, hget, hs, hph⟩
  · rintro ⟨al, s, ph, hal, hs, hph⟩
    refine List.mem_map.2 ⟨(f, al),
      List.mem_filter.2 ⟨mem_of_dGet_eq_some _ _ _ hal, ?_⟩, rfl⟩
    simp [hs, hph]

theorem mem_of_mem_throughputLabels (rows : List Record) (f : String)
    (h : f ∈ throughputLabels rows) : f ∈ throughputAllLabels rows := by
  unfold throughputLabels at h
  rcases List.mem_append.1 h with h1 | h2
  · exact of_decide_eq_true (List.mem_filter.1 h1).2
  · have hmem := (List.mergeSort_perm _ _).mem_iff.1 h2
    exact (List.mem_filter.1 hmem).1

theorem throughputAt_eq (d : Dict (Dict Record)) (f a : String)
    (al : Dict Record) (r : Record)
    (hal : dGet d f = some al) (hr : dGet al a = some r) :
    throughputAt d f a = r.throughput_mib_s := by
  simp [throughputAt, hal, hr]

theorem make_throughput_plot_labels (rows : List Record) :
    (make_throughput_plot rows).labels = throughputLabels rows := rfl

theorem make_throughput_plot_sha_vals (rows : List Record) :
    (make_throughput_plot rows).sha_vals =
      (throughputLabels rows).map
        (fun f => throughputAt (pivot_by_file rows) f "SHA-256") := rfl

theorem make_throughput_plot_ph_vals (rows : List Record) :
    (make_throughput_plot rows).ph_vals =
      (throughputLabels rows).map
        (fun f => throughputAt (pivot_by_file rows) f "PH128") := rfl

theorem throughput_vals_at (rows : List Record) (i : Nat) (f : String)
    (hf : (make_throughput_plot rows).labels.get? i = some f) :
    ∃ al s ph, dGet (pivot_by_file rows) f = some al ∧
      dGet al "SHA-256" = some s ∧ dGet al "PH128" = some ph ∧
      (make_throughput_plot rows).sha_vals.get? i = some s.throughput_mib_s ∧
      (make_throughput_plot rows).ph_vals.get? i = some ph.throughput_mib_s := by
  rw [make_throughput_plot_labels] at hf
  have hmem : f ∈ throughputAllLabels rows :=
    mem_of_mem_throughputLabels rows f (List.get?_mem hf)
  rcases (mem_throughputAllLabels_iff rows f).1 hmem with ⟨al, s, ph, hal, hs, hph⟩
  refine ⟨al, s, ph, hal, hs, hph, ?_, ?_⟩
  · rw [make_throughput_plot_sha_vals, List.get?_map, hf, Option.map_some',
      throughputAt_eq _ _ _ _ _ hal hs]
  · rw [make_throughput_plot_ph_vals, List.get?_map, hf, Option.map_some',
      throughputAt_eq _ _ _ _ _ hal hph]

theorem innerKeysNodup_pivotStep (d : Dict (Dict Record)) (r : Record)
    (h : innerKeysNodup d) : innerKeysNodup (pivotStep d r) := by
  unfold pivotStep
  by_cases hrec : recognizedAlgo r.algo
  · simp only [if_pos hrec]
    intro f al hget
    by_cases hf : f = r.file
    · subst hf
      rw [dGet_dSet_self] at hget
      cases hget
      cases hdg : dGet d r.file with
      | none => simp [hdg, dSet]
      | some al0 =>
        exact nodup_keys_dSet _ _ _ (h r.file al0 hdg)
    · rw [dGet_dSet_ne _ _ _ _ hf] at hget
      exact h f al hget
  · simp only [if_neg hrec]
    exact h

theorem pivot_innerKeysNodup (rows : List Record) :
    innerKeysNodup (pivot_by_file rows) := by
  induction rows using List.reverseRecOn with
  | nil =>
    intro f al hget
    simp [pivot_by_file, dGet] at hget
  | append_singleton l r ih =>
    rw [pivot_by_file_append]
    exact innerKeysNodup_pivotStep _ _ ih

theorem filterMap_timeSel_fst (l : List (String × Dict Record)) :
    (l.filterMap timeSel).map (fun e => e.1) =
      (l.filter (fun p => decide (p.1 ≠ "TOTAL" ∧
        (dGet p.2 "SHA-256").isSome ∧ (dGet p.2 "PH128").isSome))).map
        (fun p => p.1) := by
  induction l with
  | nil => simp
  | cons p l ih =>
    by_cases ht : p.1 = "TOTAL"
    · simp [List.filterMap_cons, List.filter_cons, timeSel, ht, ih]
    · cases hs : dGet p.2 "SHA-256" <;> cases hph : dGet p.2 "PH128" <;>
        simp [List.filterMap_cons, List.filter_cons, timeSel, ht, hs, hph, ih]

/-- C4: numeric coercion never raises; a failing declared-size parse gives
`None`, failing byte-count/elapsed/throughput parses give `0`/`0.0`/`0.0`.
(Totality of `readRow` is the never-raises part; the conjuncts give the
documented defaults.) -/
theorem spec_C4 (r : RawRow) :
    (to_int r.B_bytes = none → (readRow r).B_bytes = none) ∧
    (to_int r.bytes = none → (readRow r).bytes = 0) ∧
    (to_float r.elapsed_ms_med = none → (readRow r).elapsed_ms_med = 0) ∧
    (to_float r.throughput_mib_s = none → (readRow r).throughput_mib_s = 0) := by
  refine ⟨?_, ?_, ?_, ?_⟩ <;> intro h <;> simp [readRow, h]

theorem spec_C4_witness :
    to_int badRow.B_bytes = none ∧ to_int badRow.bytes = none ∧
    to_float badRow.elapsed_ms_med = none ∧
    to_float badRow.throughput_mib_s = none ∧
    (readRow badRow).B_bytes = none ∧ (readRow badRow).bytes = 0 ∧
    (readRow badRow).elapsed_ms_med = 0 ∧
    (readRow badRow).throughput_mib_s = 0 :=
  ⟨rfl, rfl, rfl, rfl,
    (spec_C4 badRow).1 rfl, (spec_C4 badRow).2.1 rfl,
    (spec_C4 badRow).2.2.1 rfl, (spec_C4 badRow).2.2.2 rfl⟩

/-- C6 (counterexample): a byte-count cell holding the float-formatted
value "3.5" is coerced to the default 0 — there is no integer-then-float
fallback, even though the float parse of the same cell succeeds. -/
theorem spec_C6_counterexample :
    (readRow floatBytesRow).bytes = 0 ∧ (pyFloatVal "3.5").isSome :=
  ⟨rfl, rfl⟩

/-- C6 (amended): integer columns attempt only an integer parse and float
columns only a float parse; empty or whitespace-only cells and parse
failures are treated identically as absent and never raise; a byte-count
cell holding a float-formatted value therefore yields the default 0. -/
theorem spec_C6_amended (s : String) (r : RawRow) :
    to_int (some s) = pyIntVal (pyStrip s) ∧
    to_float (some s) = pyFloatVal (pyStrip s) ∧
    (stripChars s.data = [] → to_int (some s) = none ∧ to_float (some s) = none) ∧
    (to_int r.bytes = none → (readRow r).bytes = 0) := by
  refine ⟨rfl, rfl, fun h => ⟨?_, ?_⟩, fun h => by simp [readRow, h]⟩
  · show pyIntVal (pyStrip s) = none
    rw [show pyStrip s = ⟨[]⟩ from by simp [pyStrip, h]]
    rfl
  · show pyFloatVal (pyStrip s) = none
    rw [show pyStrip s = ⟨[]⟩ from by simp [pyStrip, h]]
    rfl

theorem spec_C6_amended_witness :
    stripChars ("  " : String).data = [] ∧ to_int (some "  ") = none ∧
    to_float (some "  ") = none ∧ to_int floatBytesRow.bytes = none ∧
    (readRow floatBytesRow).bytes = 0 :=
  ⟨rfl, ((spec_C6_amended "  " floatBytesRow).2.2.1 rfl).1,
    ((spec_C6_amended "  " floatBytesRow).2.2.1 rfl).2, rfl,
    (spec_C6_amended "  " floatBytesRow).2.2.2 rfl⟩

/-- C5: the pivot index never stores an algorithm key other than the two
recognized identifiers; unrecognized records are dropped. -/
theorem spec_C5 (rows : List Record) (f a : String) (al : Dict Record)
    (h1 : dGet (pivot_by_file rows) f = some al)
    (h2 : (dGet al a).isSome) :
    a = "SHA-256" ∨ a = "PH128" :=
  pivot_innerKeysRecognized rows f al h1 a h2

theorem spec_C5_witness :
    dGet (pivot_by_file sampleRows) "data.bin" = some sampleAl ∧
    (dGet sampleAl "PH128").isSome ∧
    ("PH128" = "SHA-256" ∨ "PH128" = "PH128") :=
  ⟨rfl, rfl, spec_C5 sampleRows "data.bin" "PH128" sampleAl rfl rfl⟩

/-- C7: for a recognized algorithm, the pivot index retains exactly the
last matching record in input order (and inner keys are unique, so at most
one record per (file, algorithm) pair is kept). -/
theorem spec_C7 (rows : List Record) (f a : String)
    (h : a = "SHA-256" ∨ a = "PH128") :
    (∀ al, dGet (pivot_by_file rows) f = some al → (al.map Prod.fst).Nodup) ∧
    (dGet (pivot_by_file rows) f).bind (fun al => dGet al a) =
      (rows.filter (fun r => decide (r.file = f ∧ r.algo = a))).getLast? :=
  ⟨fun al hal => pivot_innerKeysNodup rows f al hal,
    pivot_last_wins rows f a h⟩

theorem spec_C7_witness :
    ("SHA-256" = "SHA-256" ∨ "SHA-256" = "PH128") ∧
    ((∀ al, dGet (pivot_by_file dupRows) "data.bin" = some al →
        (al.map Prod.fst).Nodup) ∧
      (dGet (pivot_by_file dupRows) "data.bin").bind
          (fun al => dGet al "SHA-256") =
        (dupRows.filter (fun r =>
          decide (r.file = "data.bin" ∧ r.algo = "SHA-256"))).getLast?) ∧
    (dGet (pivot_by_file dupRows) "data.bin").bind
        (fun al => dGet al "SHA-256") = some recSha2 :=
  ⟨Or.inl rfl, spec_C7 dupRows "data.bin" "SHA-256" (Or.inl rfl), rfl⟩

/-- C8: a header-only table yields no records, and all three renderers
produce a chart with zero category points without failing. -/
theorem spec_C8 :
    read_rows [] = [] ∧
    make_time_plot (read_rows []) =
      { labels := [], sha_vals := [], ph_vals := [],
        sha_texts := [], ph_texts := [] } ∧
    make_speedup_plot (read_rows []) =
      { labels := [], values := [], texts := [] } ∧
    make_throughput_plot (read_rows []) =
      { labels := [], sha_vals := [], ph_vals := [],
        sha_texts := [], ph_texts := [] } := by
  have hlab : throughputLabels (read_rows []) = [] := by
    rw [show throughputLabels (read_rows []) =
        ([] : List String).mergeSort (fun a b => decide (a ≤ b)) from rfl,
      List.mergeSort_nil]
  refine ⟨rfl, rfl, rfl, ?_⟩
  rw [show make_throughput_plot (read_rows []) =
      { labels := throughputLabels (read_rows []),
        sha_vals := (throughputLabels (read_rows [])).map
          (fun f => throughputAt (pivot_by_file (read_rows [])) f "SHA-256"),
        ph_vals := (throughputLabels (read_rows [])).map
          (fun f => throughputAt (pivot_by_file (read_rows [])) f "PH128"),
        sha_texts := barAnnotations ((throughputLabels (read_rows [])).map
          (fun f => throughputAt (pivot_by_file (read_rows [])) f "SHA-256")),
        ph_texts := barAnnotations ((throughputLabels (read_rows [])).map
          (fun f => throughputAt (pivot_by_file (read_rows [])) f "PH128")) }
    from rfl, hlab]
  rfl

/-- C9: the entry point derives the three output names by suffixing
`_time`, `_speedup`, `_throughput` to the input path's stem before the
`.png` extension, runs the renderers in the order time, speedup,
throughput, and prints a confirmation line followed by the three paths. -/
theorem spec_C9 (csv outdir : String) :
    (mainRun csv outdir).renders =
      [("time", pathJoin outdir (pathStem csv ++ "_time.png")),
       ("speedup", pathJoin outdir (pathStem csv ++ "_speedup.png")),
       ("throughput", pathJoin outdir (pathStem csv ++ "_throughput.png"))] ∧
    (mainRun csv outdir).printed =
      "OK! Arquivos salvos:" ::
        (mainRun csv outdir).renders.map (fun p => " - " ++ p.2) ∧
    pathStem "snapshot_bench.csv" = "snapshot_bench" :=
  ⟨rfl, rfl, by decide⟩

theorem throughput_suffix_sorted (rows : List Record) :
    List.Sorted (fun a b : String => a ≤ b)
      (((throughputAllLabels rows).filter
        (fun f => decide (f ∉ preferredOrder))).mergeSort
        (fun a b => decide (a ≤ b))) := by
  have htrans : ∀ (a b c : String), decide (a ≤ b) = true →
      decide (b ≤ c) = true → decide (a ≤ c) = true := by
    intro a b c hab hbc
    simp only [decide_eq_true_eq] at *
    exact le_trans hab hbc
  have htot : ∀ (a b : String), (decide (a ≤ b) || decide (b ≤ a)) = true := by
    intro a b
    simp only [Bool.or_eq_true, decide_eq_true_eq]
    exact le_total a b
  have hp := List.sorted_mergeSort htrans htot
    ((throughputAllLabels rows).filter (fun f => decide (f ∉ preferredOrder)))
  exact List.Pairwise.imp (fun h => of_decide_eq_true h) hp

/-- C1: a file (the "TOTAL" row included) is a speedup-chart category iff
the pivot has records for both recognized algorithms with non-zero
throughputs, and each bar's value is exactly the PH128 throughput divided
by the SHA-256 throughput. -/
theorem spec_C1 (rows : List Record) :
    (∀ f, f ∈ (make_speedup_plot rows).labels ↔
      ∃ al s ph, dGet (pivot_by_file rows) f = some al ∧
        dGet al "SHA-256" = some s ∧ dGet al "PH128" = some ph ∧
        s.throughput_mib_s ≠ 0 ∧ ph.throughput_mib_s ≠ 0) ∧
    (∀ i f, (make_speedup_plot rows).labels.get? i = some f →
      ∃ al s ph, dGet (pivot_by_file rows) f = some al ∧
        dGet al "SHA-256" = some s ∧ dGet al "PH128" = some ph ∧
        s.throughput_mib_s ≠ 0 ∧ ph.throughput_mib_s ≠ 0 ∧
        (make_speedup_plot rows).values.get? i =
          some (ph.throughput_mib_s / s.throughput_mib_s)) :=
  ⟨fun f => mem_speedup_labels_iff rows f,
    fun i f hf => speedup_vals_at rows i f hf⟩

theorem spec_C1_witness :
    ((make_speedup_plot sampleRows).labels.get? 0 = some "data.bin") ∧
    (∃ al s ph, dGet (pivot_by_file sampleRows) "data.bin" = some al ∧
      dGet al "SHA-256" = some s ∧ dGet al "PH128" = some ph ∧
      s.throughput_mib_s ≠ 0 ∧ ph.throughput_mib_s ≠ 0 ∧
      (make_speedup_plot sampleRows).values.get? 0 =
        some (ph.throughput_mib_s / s.throughput_mib_s)) :=
  ⟨rfl, (spec_C1 sampleRows).2 0 "data.bin" rfl⟩

/-- C2: the time chart's categories are exactly the pivot's file names
other than "TOTAL" that have both algorithms, in pivot iteration order;
the two bars of each category are the stored records' median elapsed
milliseconds, annotated to two decimal places. -/
theorem spec_C2 (rows : List Record) :
    ((make_time_plot rows).labels =
      ((pivot_by_file rows).filter (fun p => decide (p.1 ≠ "TOTAL" ∧
        (dGet p.2 "SHA-256").isSome ∧ (dGet p.2 "PH128").isSome))).map
        (fun p => p.1)) ∧
    (∀ f, f ∈ (make_time_plot rows).labels ↔
      f ≠ "TOTAL" ∧ ∃ al s ph, dGet (pivot_by_file rows) f = some al ∧
        dGet al "SHA-256" = some s ∧ dGet al "PH128" = some ph) ∧
    (∀ i f, (make_time_plot rows).labels.get? i = some f →
      ∃ al s ph, dGet (pivot_by_file rows) f = some al ∧
        dGet al "SHA-256" = some s ∧ dGet al "PH128" = some ph ∧
        (make_time_plot rows).sha_vals.get? i = some s.elapsed_ms_med ∧
        (make_time_plot rows).ph_vals.get? i = some ph.elapsed_ms_med) ∧
    (make_time_plot rows).sha_texts = (make_time_plot rows).sha_vals.map fmt2 ∧
    (make_time_plot rows).ph_texts = (make_time_plot rows).ph_vals.map fmt2 :=
  ⟨by rw [make_time_plot_labels, filterMap_timeSel_fst],
    fun f => mem_time_labels_iff rows f,
    fun i f hf => time_vals_at rows i f hf,
    rfl, rfl⟩

theorem spec_C2_witness :
    ((make_time_plot sampleRows).labels.get? 0 = some "data.bin") ∧
    (∃ al s ph, dGet (pivot_by_file sampleRows) "data.bin" = some al ∧
      dGet al "SHA-256" = some s ∧ dGet al "PH128" = some ph ∧
      (make_time_plot sampleRows).sha_vals.get? 0 = some s.elapsed_ms_med ∧
      (make_time_plot sampleRows).ph_vals.get? 0 = some ph.elapsed_ms_med) :=
  ⟨rfl, (spec_C2 sampleRows).2.2.1 0 "data.bin" rfl⟩

/-- C3: the throughput chart's categories are the qualifying preferred
entries, in preferred order, followed by the remaining qualifying file
names sorted lexicographically; membership in the qualifying set is
equivalent to the pivot's holding both algorithms' records. -/
theorem spec_C3 (rows : List Record) :
    (∃ B, (make_throughput_plot rows).labels =
        preferredOrder.filter (fun f =>
          decide (f ∈ throughputAllLabels rows)) ++ B ∧
      List.Sorted (fun a b : String => a ≤ b) B ∧
      B.Perm ((throughputAllLabels rows).filter
        (fun f => decide (f ∉ preferredOrder)))) ∧
    (∀ f, f ∈ throughputAllLabels rows ↔
      ∃ al s ph, dGet (pivot_by_file rows) f = some al ∧
        dGet al "SHA-256" = some s ∧ dGet al "PH128" = some ph) :=
  ⟨⟨((throughputAllLabels rows).filter
      (fun f => decide (f ∉ preferredOrder))).mergeSort
        (fun a b => decide (a ≤ b)),
    rfl, throughput_suffix_sorted rows, List.mergeSort_perm _ _⟩,
    fun f => mem_throughputAllLabels_iff rows f⟩

/-- C10: in both grouped-bar renderers the label list and the two value
lists have equal length, and the two bars at each index are taken from the
two records the pivot stores under that index's file name. -/
theorem spec_C10 (rows : List Record) :
    ((make_time_plot rows).sha_vals.length =
        (make_time_plot rows).labels.length ∧
      (make_time_plot rows).ph_vals.length =
        (make_time_plot rows).labels.length ∧
      ∀ i f, (make_time_plot rows).labels.get? i = some f →
        ∃ al s ph, dGet (pivot_by_file rows) f = some al ∧
          dGet al "SHA-256" = some s ∧ dGet al "PH128" = some ph ∧
          (make_time_plot rows).sha_vals.get? i = some s.elapsed_ms_med ∧
          (make_time_plot rows).ph_vals.get? i = some ph.elapsed_ms_med) ∧
    ((make_throughput_plot rows).sha_vals.length =
        (make_throughput_plot rows).labels.length ∧
      (make_throughput_plot rows).ph_vals.length =
        (make_throughput_plot rows).labels.length ∧
      ∀ i f, (make_throughput_plot rows).labels.get? i = some f →
        ∃ al s ph, dGet (pivot_by_file rows) f = some al ∧
          dGet al "SHA-256" = some s ∧ dGet al "PH128" = some ph ∧
          (make_throughput_plot rows).sha_vals.get? i =
            some s.throughput_mib_s ∧
          (make_throughput_plot rows).ph_vals.get? i =
            some ph.throughput_mib_s) := by
  refine ⟨⟨?_, ?_, fun i f hf => time_vals_at rows i f hf⟩,
    ⟨?_, ?_, fun i f hf => throughput_vals_at rows i f hf⟩⟩
  · rw [make_time_plot_labels, make_time_plot_sha_vals]
    simp
  · rw [make_time_plot_labels, make_time_plot_ph_vals]
    simp
  · rw [make_throughput_plot_labels, make_throughput_plot_sha_vals]
    simp
  · rw [make_throughput_plot_labels, make_throughput_plot_ph_vals]
    simp

theorem spec_C10_witness :
    ((make_time_plot sampleRows).labels.get? 0 = some "data.bin" ∧
      ∃ al s ph, dGet (pivot_by_file sampleRows) "data.bin" = some al ∧
        dGet al "SHA-256" = some s ∧ dGet al "PH128" = some ph ∧
        (make_time_plot sampleRows).sha_vals.get? 0 = some s.elapsed_ms_med ∧
        (make_time_plot sampleRows).ph_vals.get? 0 =
          some ph.elapsed_ms_med) ∧
    ((make_throughput_plot sampleRows).labels.get? 0 = some "data.bin" ∧
      ∃ al s ph, dGet (pivot_by_file sampleRows) "data.bin" = some al ∧
        dGet al "SHA-256" = some s ∧ dGet al "PH128" = some ph ∧
        (make_throughput_plot sampleRows).sha_vals.get? 0 =
          some s.throughput_mib_s ∧
        (make_throughput_plot sampleRows).ph_vals.get? 0 =
          some ph.throughput_mib_s) := by
  have hlab : (make_throughput_plot sampleRows).labels = ["data.bin"] := by
    rw [show (make_throughput_plot sampleRows).labels =
        (["data.bin"] : List String).mergeSort (fun a b => decide (a ≤ b))
      from rfl, List.mergeSort_singleton]
  have hthr : (make_throughput_plot sampleRows).labels.get? 0 =
      some "data.bin" := by rw [hlab]; rfl
  exact ⟨⟨rfl, (spec_C10 sampleRows).1.2.2 0 "data.bin" rfl⟩,
    ⟨hthr, (spec_C10 sampleRows).2.2.2 0 "data.bin" hthr⟩⟩
